import Mathlib

/-!
Verification development for the embedded-document collection, the card
flipping operation and the voice-activity detection workflow declared by the
repository.  The repository itself consists exclusively of ambient type
declarations: every behavior is declared (with documentation) but implemented
by the external host application.  The executable definitions below are
therefore shallow models built from the specification text and the doc
comments attached to the declarations.
-/

set_option autoImplicit false

/-- A plain serializable source record, as stored in a collection's backing
source array.  The `valid` flag models whether the record's data would pass
document construction (schema validation) in the host. -/
structure Record where
  _id : String
  val : Nat
  valid : Bool
deriving DecidableEq, Repr

/-- A live embedded document instance constructed from a source record. -/
structure Doc where
  _id : String
  val : Nat
deriving DecidableEq, Repr

/-- The plain record corresponding to a live document instance. -/
def Doc.toRecord (d : Doc) : Record :=
  ⟨d._id, d.val, true⟩

/-- Modelled from the spec: the host's `createDocument` / document
construction, which is missing from the repository (only declared).  Turning
one raw record into a live child instance succeeds exactly when the record's
data is valid; otherwise construction fails with a validation error. -/
def createDocument (r : Record) : Except String Doc :=
  if r.valid then Except.ok ⟨r._id, r.val⟩ else Except.error "invalid source data"

/-- Association-list lookup, modelling lookup in an insertion-ordered map. -/
def assocGet {α : Type} : List (String × α) → String → Option α
  | [], _ => none
  | p :: rest, k => if p.1 = k then some p.2 else assocGet rest k

/-- Association-list insertion, modelling insertion in an insertion-ordered
map: an existing key is replaced in place, a new key is appended at the end. -/
def assocSet {α : Type} : List (String × α) → String → α → List (String × α)
  | [], k, v => [(k, v)]
  | p :: rest, k, v => if p.1 = k then (k, v) :: rest else p :: assocSet rest k v

/-- Association-list removal of the entry under a key. -/
def assocDelete {α : Type} : List (String × α) → String → List (String × α)
  | [], _ => []
  | p :: rest, k => if p.1 = k then rest else p :: assocDelete rest k

/-- Find the record with the given identifier in a backing source array. -/
def srcFind : List Record → String → Option Record
  | [], _ => none
  | r :: rest, k => if r._id = k then some r else srcFind rest k

/-- Write a record into the backing source array at the matching position:
the record whose identifier matches is replaced in place, otherwise the new
record is appended at the end. -/
def srcSet : List Record → String → Record → List Record
  | [], _, v => [v]
  | r :: rest, k, v => if r._id = k then v :: rest else r :: srcSet rest k v

/-- Remove the record with the given identifier from the source array. -/
def srcDelete : List Record → String → List Record
  | [], _ => []
  | r :: rest, k => if r._id = k then rest else r :: srcDelete rest k

/-- Modelled from the spec: the state of an `EmbeddedCollection`, whose
implementation is missing from the repository (only its interface is
declared).  `documents` is the live insertion-ordered map from identifier to
child instance, `_source` the backing array of plain records, and
`invalidDocumentIds` the set of identifiers whose source data failed
construction. -/
structure EmbeddedCollection where
  documents : List (String × Doc)
  _source : List Record
  invalidDocumentIds : List String
deriving DecidableEq, Repr

/-- A per-record report produced while building the collection: a logged
warning, or a hard failure, for one invalid source record. -/
inductive InitReport where
  | warning : String → InitReport
  | hardFailure : String → InitReport
deriving DecidableEq, Repr

/-- Modelled from the spec: `EmbeddedCollection#_handleInvalidDocument`,
declared but not implemented in the repository.  Records the invalid
identifier in the invalid-identifier set and reports the failure as a warning
or as a hard failure according to the caller-chosen strictness flag; no other
collection state is touched. -/
def EmbeddedCollection._handleInvalidDocument (c : EmbeddedCollection) (id : String)
    (strict : Bool) : EmbeddedCollection × InitReport :=
  (⟨c.documents, c._source,
    if id ∈ c.invalidDocumentIds then c.invalidDocumentIds else c.invalidDocumentIds ++ [id]⟩,
   if strict then InitReport.hardFailure id else InitReport.warning id)

/-- Modelled from the spec: `EmbeddedCollection#_initializeDocument`, declared
but not implemented in the repository.  One step of collection construction:
build the document for one source record and store it in the live map, or, on
construction failure, record and report the invalid identifier without
aborting. -/
def EmbeddedCollection._initDocument (strict : Bool)
    (acc : EmbeddedCollection × List InitReport) (data : Record) :
    EmbeddedCollection × List InitReport :=
  match createDocument data with
  | Except.ok doc =>
      (⟨assocSet acc.1.documents doc._id doc, acc.1._source, acc.1.invalidDocumentIds⟩, acc.2)
  | Except.error _ =>
      let handled := acc.1._handleInvalidDocument data._id strict
      (handled.1, acc.2 ++ [handled.2])

/-- Modelled from the spec: `EmbeddedCollection#initialize`, declared but not
implemented in the repository.  Builds the collection from its backing source
array, populating the live map in array order and isolating per-record
construction failures; returns the collection together with the list of
per-record failure reports. -/
def EmbeddedCollection.init (sourceArray : List Record) (strict : Bool) :
    EmbeddedCollection × List InitReport :=
  sourceArray.foldl (EmbeddedCollection._initDocument strict) (⟨[], sourceArray, []⟩, [])

/-- Modelled from the spec: `EmbeddedCollection#_set`, declared but not
implemented in the repository.  Writes the plain record of the document into
the backing source array at the matching position. -/
def EmbeddedCollection._set (c : EmbeddedCollection) (key : String) (value : Doc) :
    EmbeddedCollection :=
  ⟨c.documents, srcSet c._source key value.toRecord, c.invalidDocumentIds⟩

/-- Modelled from the spec: `EmbeddedCollection#set`, declared but not
implemented in the repository.  Inserts or replaces the child under the key in
the live map; when `modifySource` is `true` (the declared default) the plain
record is also written into the backing source array. -/
def EmbeddedCollection.set (c : EmbeddedCollection) (key : String) (value : Doc)
    (modifySource : Bool) : EmbeddedCollection :=
  let c1 := if modifySource then c._set key value else c
  ⟨assocSet c1.documents key value, c1._source, c1.invalidDocumentIds⟩

/-- Modelled from the spec: `EmbeddedCollection#_delete`, declared but not
implemented in the repository.  Removes the record under the key from the
backing source array. -/
def EmbeddedCollection._delete (c : EmbeddedCollection) (key : String) :
    EmbeddedCollection :=
  ⟨c.documents, srcDelete c._source key, c.invalidDocumentIds⟩

/-- Modelled from the spec: `EmbeddedCollection#delete`, declared but not
implemented in the repository.  Removes the child under the key from the live
map and, when `modifySource` is `true` (the declared default), from the
backing source array; returns whether a removal actually occurred.  When no
child is present under the key, nothing is removed and the collection is left
unchanged. -/
def EmbeddedCollection.delete (c : EmbeddedCollection) (key : String)
    (modifySource : Bool) : EmbeddedCollection × Bool :=
  match assocGet c.documents key with
  | none => (c, false)
  | some _ =>
      let c1 := if modifySource then c._delete key else c
      (⟨assocDelete c1.documents key, c1._source, c1.invalidDocumentIds⟩, true)

/-- Modelled from the spec: `EmbeddedCollection#_createOrUpdate`, declared but
not implemented in the repository.  Folds a batch of raw records over the
collection: each record's child is created (new identifier) or updated in
place (existing identifier), writing through to the backing source array. -/
def EmbeddedCollection._createOrUpdate (c : EmbeddedCollection) (data : List Record) :
    EmbeddedCollection :=
  data.foldl (fun acc r => acc.set r._id ⟨r._id, r.val⟩ true) c

/-- Modelled from the spec: `EmbeddedCollection#update`, declared but not
implemented in the repository.  Reconciles the collection with a batch of raw
child records; identifiers absent from the batch are left untouched. -/
def EmbeddedCollection.update (c : EmbeddedCollection) (changes : List Record) :
    EmbeddedCollection :=
  c._createOrUpdate changes

/-- Modelled from the spec: `EmbeddedCollection#getInvalid`, declared but not
implemented in the repository.  Obtains the degraded (raw source) form of a
document whose identifier is in the invalid set; throws exactly when `strict`
is `true` and the identifier is not in the invalid set. -/
def EmbeddedCollection.getInvalid (c : EmbeddedCollection) (id : String) (strict : Bool) :
    Except String (Option Record) :=
  if id ∈ c.invalidDocumentIds then Except.ok (srcFind c._source id)
  else if strict then Except.error "id is not in the set of invalid ids"
  else Except.ok none

/-- The result of a successful retrieval: a live child instance, or the
degraded raw form of an invalid entry. -/
inductive Retrieved where
  | live : Doc → Retrieved
  | degraded : Record → Retrieved
deriving DecidableEq, Repr

/-- Modelled from the spec: `EmbeddedCollection#get`, declared but not
implemented in the repository.  Returns the live instance under the
identifier, or a not-found signal (`none`); with the `invalid` opt-in a
degraded instance may be retrieved from the invalid set; with the `strict`
opt-in a missing identifier is escalated to a hard failure.  Both options are
declared to default to `false`. -/
def EmbeddedCollection.get (c : EmbeddedCollection) (id : String)
    (strict invalid : Bool) : Except String (Option Retrieved) :=
  match assocGet c.documents id with
  | some d => Except.ok (some (Retrieved.live d))
  | none =>
      let fallback : Option Record :=
        if invalid then
          match c.getInvalid id false with
          | Except.ok o => o
          | Except.error _ => none
        else none
      match fallback with
      | some r => Except.ok (some (Retrieved.degraded r))
      | none => if strict then Except.error "does not exist" else Except.ok none

/-- The declared default invocation of `get`: both options off. -/
def EmbeddedCollection.getDefault (c : EmbeddedCollection) (id : String) :
    Except String (Option Retrieved) :=
  c.get id false false

/-- The empty collection (no documents, empty source array). -/
def EmbeddedCollection.empty : EmbeddedCollection :=
  ⟨[], [], []⟩

/-- The live map and the backing source array agree: every identifier is
mapped to a live instance exactly when its plain record is in the backing
array, and the two correspond. -/
def EmbeddedCollection.agrees (c : EmbeddedCollection) : Prop :=
  ∀ id, Option.map Doc.toRecord (assocGet c.documents id) = srcFind c._source id

/-- Apply a sequence of default-mode (source-modifying) set operations. -/
def EmbeddedCollection.applyDefaultSets (c : EmbeddedCollection) (ds : List Doc) :
    EmbeddedCollection :=
  ds.foldl (fun acc d => acc.set d._id d true) c

/-- A mutation operation on the collection, as declared in the interface. -/
inductive Op where
  | setOp : String → Doc → Bool → Op
  | deleteOp : String → Bool → Op
  | updateOp : List Record → Op
deriving DecidableEq, Repr

/-- Apply one declared mutation operation. -/
def EmbeddedCollection.applyOp (c : EmbeddedCollection) : Op → EmbeddedCollection
  | Op.setOp k v ms => c.set k v ms
  | Op.deleteOp k ms => (c.delete k ms).1
  | Op.updateOp data => c.update data

/-- Apply a sequence of declared mutation operations. -/
def EmbeddedCollection.applyOps (c : EmbeddedCollection) (ops : List Op) :
    EmbeddedCollection :=
  ops.foldl EmbeddedCollection.applyOp c

/-! ### Lemmas about the ordered-map and source-array primitives -/

theorem assocGet_assocSet_self {α : Type} (m : List (String × α)) (k : String) (v : α) :
    assocGet (assocSet m k v) k = some v := by
  induction m with
  | nil => simp [assocSet, assocGet]
  | cons p rest ih =>
      by_cases h : p.1 = k
      · simp [assocSet, assocGet, h]
      · simp [assocSet, assocGet, h, ih]

theorem assocGet_assocSet_ne {α : Type} (m : List (String × α)) (k k2 : String) (v : α)
    (h : k ≠ k2) : assocGet (assocSet m k v) k2 = assocGet m k2 := by
  induction m with
  | nil => simp [assocSet, assocGet, h]
  | cons p rest ih =>
      by_cases hp : p.1 = k
      · simp [assocSet, assocGet, hp, h]
      · by_cases hq : p.1 = k2
        · simp [assocSet, assocGet, hp, hq, Ne.symm h]
        · simp [assocSet, assocGet, hp, hq, ih]

theorem assocSet_absent {α : Type} (m : List (String × α)) (k : String) (v : α)
    (h : assocGet m k = none) : assocSet m k v = m ++ [(k, v)] := by
  induction m with
  | nil => simp [assocSet]
  | cons p rest ih =>
      by_cases hp : p.1 = k
      · simp [assocGet, hp] at h
      · simp [assocGet, hp] at h
        simp [assocSet, hp, ih h]

theorem assocGet_append {α : Type} (a b : List (String × α)) (k : String)
    (h : assocGet a k = none) : assocGet (a ++ b) k = assocGet b k := by
  induction a with
  | nil => simp
  | cons p rest ih =>
      by_cases hp : p.1 = k
      · simp [assocGet, hp] at h
      · simp [assocGet, hp] at h
        simp [assocGet, hp, ih h]

theorem assocGet_eq_none_iff {α : Type} (m : List (String × α)) (k : String) :
    assocGet m k = none ↔ k ∉ m.map Prod.fst := by
  induction m with
  | nil => simp [assocGet]
  | cons p rest ih =>
      by_cases hp : p.1 = k
      · simp [assocGet, hp]
      · simp [assocGet, hp, ih, Ne.symm hp]

theorem assocSet_keys_mem {α : Type} (m : List (String × α)) (k : String) (v : α)
    (h : (assocGet m k).isSome = true) :
    (assocSet m k v).map Prod.fst = m.map Prod.fst := by
  induction m with
  | nil => simp [assocGet] at h
  | cons p rest ih =>
      by_cases hp : p.1 = k
      · simp [assocSet, hp]
      · simp [assocGet, hp] at h
        simp [assocSet, hp, ih h]

theorem assocSet_keys_new {α : Type} (m : List (String × α)) (k : String) (v : α)
    (h : assocGet m k = none) :
    (assocSet m k v).map Prod.fst = m.map Prod.fst ++ [k] := by
  rw [assocSet_absent m k v h]
  simp

theorem nodup_keys_assocSet {α : Type} (m : List (String × α)) (k : String) (v : α)
    (h : (m.map Prod.fst).Nodup) : ((assocSet m k v).map Prod.fst).Nodup := by
  rcases ho : assocGet m k with _ | w
  · rw [assocSet_keys_new m k v ho]
    rw [List.nodup_append]
    refine ⟨h, List.nodup_singleton k, ?_⟩
    intro x hx hk
    simp at hk
    subst hk
    exact (assocGet_eq_none_iff m x).mp ho hx
  · rw [assocSet_keys_mem m k v (by simp [ho])]
    exact h

theorem assocDelete_sublist {α : Type} (m : List (String × α)) (k : String) :
    (assocDelete m k).Sublist m := by
  induction m with
  | nil => simp [assocDelete]
  | cons p rest ih =>
      by_cases hp : p.1 = k
      · simp only [assocDelete, hp, if_pos]
        exact List.Sublist.cons p (List.Sublist.refl rest)
      · simp only [assocDelete, hp, if_neg, not_false_iff]
        exact List.Sublist.cons₂ p ih

theorem nodup_keys_assocDelete {α : Type} (m : List (String × α)) (k : String)
    (h : (m.map Prod.fst).Nodup) : ((assocDelete m k).map Prod.fst).Nodup :=
  ((assocDelete_sublist m k).map Prod.fst).nodup h

theorem srcFind_srcSet_self (s : List Record) (k : String) (v : Record)
    (hv : v._id = k) : srcFind (srcSet s k v) k = some v := by
  induction s with
  | nil => simp [srcSet, srcFind, hv]
  | cons r rest ih =>
      by_cases hr : r._id = k
      · simp [srcSet, srcFind, hr, hv]
      · simp [srcSet, srcFind, hr, ih]

theorem srcFind_srcSet_ne (s : List Record) (k k2 : String) (v : Record)
    (hv : v._id = k) (h : k ≠ k2) : srcFind (srcSet s k v) k2 = srcFind s k2 := by
  induction s with
  | nil => simp [srcSet, srcFind, hv, h]
  | cons r rest ih =>
      by_cases hr : r._id = k
      · have : r._id ≠ k2 := by rw [hr]; exact h
        simp [srcSet, srcFind, hr, hv, h, this]
      · by_cases hq : r._id = k2
        · simp [srcSet, srcFind, hr, hq, Ne.symm h]
        · simp [srcSet, srcFind, hr, hq, ih]

theorem nodup_map_inj {α β : Type} {f : α → β} :
    ∀ {l : List α}, (l.map f).Nodup → ∀ a ∈ l, ∀ b ∈ l, f a = f b → a = b := by
  intro l
  induction l with
  | nil => intro _ a ha; simp at ha
  | cons x rest ih =>
      intro hnd a ha b hb hfab
      rw [List.map_cons, List.nodup_cons] at hnd
      rcases List.mem_cons.mp ha with hax | hax
      · rcases List.mem_cons.mp hb with hbx | hbx
        · rw [hax, hbx]
        · exfalso
          apply hnd.1
          rw [hax] at hfab
          rw [hfab]
          exact List.mem_map.mpr ⟨b, hbx, rfl⟩
      · rcases List.mem_cons.mp hb with hbx | hbx
        · exfalso
          apply hnd.1
          rw [hbx] at hfab
          rw [← hfab]
          exact List.mem_map.mpr ⟨a, hax, rfl⟩
        · exact ih hnd.2 a hax b hbx hfab

/-! ### Characterization of collection construction -/

theorem initRun_spec (strict : Bool) :
    ∀ (l : List Record) (acc : EmbeddedCollection × List InitReport),
      (∀ r ∈ l, assocGet acc.1.documents r._id = none ∧ r._id ∉ acc.1.invalidDocumentIds) →
      (l.map Record._id).Nodup →
      List.foldl (EmbeddedCollection._initDocument strict) acc l =
        (⟨acc.1.documents ++ (l.filter fun r => r.valid).map (fun r => (r._id, ⟨r._id, r.val⟩)),
          acc.1._source,
          acc.1.invalidDocumentIds ++ (l.filter fun r => !r.valid).map Record._id⟩,
         acc.2 ++ (l.filter fun r => !r.valid).map
           (fun r => if strict then InitReport.hardFailure r._id else InitReport.warning r._id)) := by
  intro l
  induction l with
  | nil =>
      intro acc _ _
      rcases acc with ⟨⟨d, s, i⟩, rep⟩
      simp
  | cons r rest ih =>
      intro acc hpre hnd
      obtain ⟨hget, hinv⟩ := hpre r (List.mem_cons_self r rest)
      rw [List.map_cons, List.nodup_cons] at hnd
      have hid : ∀ r2 ∈ rest, r2._id ≠ r._id := by
        intro r2 h2 he
        exact hnd.1 (List.mem_map.mpr ⟨r2, h2, he⟩)
      rw [List.foldl_cons]
      by_cases hv : r.valid = true
      · have hstep : EmbeddedCollection._initDocument strict acc r =
            (⟨acc.1.documents ++ [(r._id, ⟨r._id, r.val⟩)], acc.1._source,
              acc.1.invalidDocumentIds⟩, acc.2) := by
          simp [EmbeddedCollection._initDocument, createDocument, hv,
                assocSet_absent _ _ _ hget]
        rw [hstep]
        have hpre2 : ∀ r2 ∈ rest,
            assocGet (acc.1.documents ++ [(r._id, (⟨r._id, r.val⟩ : Doc))]) r2._id = none ∧
            r2._id ∉ acc.1.invalidDocumentIds := by
          intro r2 h2
          refine ⟨?_, (hpre r2 (List.mem_cons_of_mem r h2)).2⟩
          rw [assocGet_append _ _ _ (hpre r2 (List.mem_cons_of_mem r h2)).1]
          simp [assocGet, Ne.symm (hid r2 h2)]
        rw [ih _ hpre2 hnd.2]
        simp [List.filter_cons, hv, List.append_assoc]
      · have hv2 : r.valid = false := by
          revert hv
          cases r.valid <;> simp
        have hstep : EmbeddedCollection._initDocument strict acc r =
            (⟨acc.1.documents, acc.1._source, acc.1.invalidDocumentIds ++ [r._id]⟩,
             acc.2 ++ [if strict then InitReport.hardFailure r._id
                       else InitReport.warning r._id]) := by
          simp [EmbeddedCollection._initDocument, createDocument, hv2,
                EmbeddedCollection._handleInvalidDocument, hinv]
        rw [hstep]
        have hpre2 : ∀ r2 ∈ rest,
            assocGet acc.1.documents r2._id = none ∧
            r2._id ∉ acc.1.invalidDocumentIds ++ [r._id] := by
          intro r2 h2
          refine ⟨(hpre r2 (List.mem_cons_of_mem r h2)).1, ?_⟩
          rw [List.mem_append]
          rintro (hmem | hmem)
          · exact (hpre r2 (List.mem_cons_of_mem r h2)).2 hmem
          · rw [List.mem_singleton] at hmem
            exact hid r2 h2 hmem
        rw [ih _ hpre2 hnd.2]
        simp [List.filter_cons, hv2, List.append_assoc]

theorem init_spec (src : List Record) (strict : Bool)
    (hnd : (src.map Record._id).Nodup) :
    EmbeddedCollection.init src strict =
      (⟨(src.filter fun r => r.valid).map (fun r => (r._id, ⟨r._id, r.val⟩)),
        src,
        (src.filter fun r => !r.valid).map Record._id⟩,
       (src.filter fun r => !r.valid).map
         (fun r => if strict then InitReport.hardFailure r._id else InitReport.warning r._id)) := by
  have h := initRun_spec strict src (⟨[], src, []⟩, [])
    (by intro r hr; exact ⟨rfl, by simp⟩) hnd
  simpa [EmbeddedCollection.init] using h

theorem map_pair_keys (f : Record → Doc) (l : List Record) :
    ((l.map fun r => (r._id, f r)).map Prod.fst) = l.map Record._id := by
  rw [List.map_map]
  rfl

theorem assocGet_map_mem (f : Record → Doc) :
    ∀ (l : List Record), ((l.map Record._id).Nodup) → ∀ r ∈ l,
      assocGet (l.map fun x => (x._id, f x)) r._id = some (f r) := by
  intro l
  induction l with
  | nil => intro _ r hr; simp at hr
  | cons a rest ih =>
      intro hnd r hr
      rw [List.map_cons, List.nodup_cons] at hnd
      rcases List.mem_cons.mp hr with h | h
      · subst h
        simp [assocGet]
      · have hne : a._id ≠ r._id := by
          intro he
          exact hnd.1 (List.mem_map.mpr ⟨r, h, he.symm⟩)
        simp [assocGet, hne]
        exact ih hnd.2 r h

theorem nodup_filter_ids (src : List Record) (p : Record → Bool)
    (hnd : (src.map Record._id).Nodup) : ((src.filter p).map Record._id).Nodup := by
  have hs : (src.filter p).Sublist src := List.filter_sublist src
  exact List.Nodup.sublist (hs.map Record._id) hnd

theorem invalid_valid_disjoint (src : List Record)
    (hnd : (src.map Record._id).Nodup) :
    ∀ id ∈ (src.filter fun r => !r.valid).map Record._id,
      id ∉ (src.filter fun r => r.valid).map Record._id := by
  intro id h1 h2
  obtain ⟨r1, hr1, he1⟩ := List.mem_map.mp h1
  obtain ⟨r2, hr2, he2⟩ := List.mem_map.mp h2
  rw [List.mem_filter] at hr1 hr2
  have heq : r1 = r2 := nodup_map_inj hnd r1 hr1.1 r2 hr2.1 (by rw [he1, he2])
  rw [heq] at hr1
  rw [hr2.2] at hr1
  simp at hr1

/-- C1: during collection construction from the backing source array, every
record that fails construction is recorded in the invalid-identifier set and
skipped in the live map, its failure does not abort construction of the
remaining records (every non-failing record is still constructed and
inserted), each failure is reported independently as a warning or a hard
failure according to the caller-chosen strictness flag, and no other
collection state is corrupted (the backing source array is untouched). -/
theorem C1_init_isolates_invalid_records (src : List Record) (strict : Bool)
    (hnd : (src.map Record._id).Nodup) :
    (∀ r ∈ src, r.valid = true →
       assocGet (EmbeddedCollection.init src strict).1.documents r._id =
         some ⟨r._id, r.val⟩) ∧
    (∀ r ∈ src, r.valid = false →
       assocGet (EmbeddedCollection.init src strict).1.documents r._id = none ∧
       r._id ∈ (EmbeddedCollection.init src strict).1.invalidDocumentIds) ∧
    ((EmbeddedCollection.init src strict).2 =
       (src.filter fun r => !r.valid).map
         (fun r => if strict then InitReport.hardFailure r._id
                   else InitReport.warning r._id)) ∧
    ((EmbeddedCollection.init src strict).1._source = src) := by
  rw [init_spec src strict hnd]
  refine ⟨?_, ?_, rfl, rfl⟩
  · intro r hr hv
    exact assocGet_map_mem _ _ (nodup_filter_ids src _ hnd) r (List.mem_filter.mpr ⟨hr, hv⟩)
  · intro r hr hv
    have hmem : r._id ∈ (src.filter fun r => !r.valid).map Record._id :=
      List.mem_map.mpr ⟨r, List.mem_filter.mpr ⟨hr, by simp [hv]⟩, rfl⟩
    refine ⟨?_, hmem⟩
    rw [assocGet_eq_none_iff, map_pair_keys]
    exact invalid_valid_disjoint src hnd r._id hmem

/-- Witness for C1 at a concrete source array with one failing record. -/
theorem C1_witness :
    assocGet (EmbeddedCollection.init
      [⟨"a", 1, true⟩, ⟨"b", 2, false⟩, ⟨"c", 3, true⟩] false).1.documents "a" =
        some ⟨"a", 1⟩ ∧
    assocGet (EmbeddedCollection.init
      [⟨"a", 1, true⟩, ⟨"b", 2, false⟩, ⟨"c", 3, true⟩] false).1.documents "b" = none ∧
    "b" ∈ (EmbeddedCollection.init
      [⟨"a", 1, true⟩, ⟨"b", 2, false⟩, ⟨"c", 3, true⟩] false).1.invalidDocumentIds ∧
    (EmbeddedCollection.init
      [⟨"a", 1, true⟩, ⟨"b", 2, false⟩, ⟨"c", 3, true⟩] false).2 =
        [InitReport.warning "b"] := by
  have h := C1_init_isolates_invalid_records
    [⟨"a", 1, true⟩, ⟨"b", 2, false⟩, ⟨"c", 3, true⟩] false (by decide)
  refine ⟨h.1 ⟨"a", 1, true⟩ (by decide) rfl,
          (h.2.1 ⟨"b", 2, false⟩ (by decide) rfl).1,
          (h.2.1 ⟨"b", 2, false⟩ (by decide) rfl).2, ?_⟩
  rw [h.2.2.1]
  decide

/-! ### Set, delete and bulk update -/

theorem set_documents (c : EmbeddedCollection) (k : String) (v : Doc) (ms : Bool) :
    (c.set k v ms).documents = assocSet c.documents k v := by
  cases ms <;> rfl

theorem set_invalid_ids (c : EmbeddedCollection) (k : String) (v : Doc) (ms : Bool) :
    (c.set k v ms).invalidDocumentIds = c.invalidDocumentIds := by
  cases ms <;> rfl

theorem agrees_set (c : EmbeddedCollection) (d : Doc) (h : c.agrees) :
    (c.set d._id d true).agrees := by
  intro id
  rw [show (c.set d._id d true).documents = assocSet c.documents d._id d from rfl,
      show (c.set d._id d true)._source = srcSet c._source d._id d.toRecord from rfl]
  by_cases hid : d._id = id
  · subst hid
    rw [assocGet_assocSet_self, srcFind_srcSet_self c._source d._id d.toRecord rfl]
    rfl
  · rw [assocGet_assocSet_ne _ _ _ _ hid,
        srcFind_srcSet_ne c._source d._id id d.toRecord rfl hid]
    exact h id

theorem agrees_applyDefaultSets : ∀ (ds : List Doc) (c : EmbeddedCollection),
    c.agrees → (c.applyDefaultSets ds).agrees := by
  intro ds
  induction ds with
  | nil => intro c h; exact h
  | cons d rest ih =>
      intro c h
      exact ih (c.set d._id d true) (agrees_set c d h)

/-- C2: set inserts or replaces the child under the key and, with the declared
default `modifySource = true`, also writes the plain record into the backing
source array at the matching position, so that any sequence of default-mode
set operations preserves agreement of live map and backing array; with the
non-persisting opt-out `modifySource = false` only the live map changes and
the backing source array is left unchanged. -/
theorem C2_set_persists_by_default (c : EmbeddedCollection) (key : String) (value : Doc) :
    ((c.set key value true).documents = assocSet c.documents key value) ∧
    ((c.set key value true)._source = srcSet c._source key value.toRecord) ∧
    ((c.set key value false).documents = assocSet c.documents key value) ∧
    ((c.set key value false)._source = c._source) ∧
    (∀ ds : List Doc, c.agrees → (c.applyDefaultSets ds).agrees) :=
  ⟨set_documents c key value true, rfl, set_documents c key value false, rfl,
   fun ds h => agrees_applyDefaultSets ds c h⟩

/-- Witness for C2: concrete set operations starting from the empty
collection, in both persistence modes. -/
theorem C2_witness :
    ((EmbeddedCollection.empty.set "a" ⟨"a", 5⟩ true).documents = [("a", ⟨"a", 5⟩)]) ∧
    ((EmbeddedCollection.empty.set "a" ⟨"a", 5⟩ true)._source = [⟨"a", 5, true⟩]) ∧
    ((EmbeddedCollection.empty.set "a" ⟨"a", 5⟩ false)._source = []) ∧
    (EmbeddedCollection.empty.applyDefaultSets [⟨"a", 5⟩, ⟨"b", 7⟩, ⟨"a", 9⟩]).agrees := by
  have h := C2_set_persists_by_default EmbeddedCollection.empty "a" ⟨"a", 5⟩
  refine ⟨?_, ?_, ?_, h.2.2.2.2 [⟨"a", 5⟩, ⟨"b", 7⟩, ⟨"a", 9⟩] (fun _ => rfl)⟩
  · rw [h.1]; rfl
  · rw [h.2.1]; rfl
  · rw [h.2.2.2.1]; rfl

/-- C3: delete removes the child under the key from the live map and, when
`modifySource` is `true` (the declared default), also from the backing source
array; it returns `true` exactly when a child was actually present and
removed, and deleting an absent key returns `false` and leaves the collection
unchanged. -/
theorem C3_delete_semantics (c : EmbeddedCollection) (key : String) :
    (∀ ms, (c.delete key ms).2 = (assocGet c.documents key).isSome) ∧
    (assocGet c.documents key = none → ∀ ms, c.delete key ms = (c, false)) ∧
    ((assocGet c.documents key).isSome = true →
       ((c.delete key true).1.documents = assocDelete c.documents key ∧
        (c.delete key true).1._source = srcDelete c._source key ∧
        (c.delete key false).1.documents = assocDelete c.documents key ∧
        (c.delete key false).1._source = c._source)) := by
  rcases hg : assocGet c.documents key with _ | d
  · refine ⟨?_, ?_, ?_⟩
    · intro ms
      simp [EmbeddedCollection.delete, hg]
    · intro _ ms
      simp [EmbeddedCollection.delete, hg]
    · intro h
      simp [hg] at h
  · refine ⟨?_, ?_, ?_⟩
    · intro ms
      cases ms <;> simp [EmbeddedCollection.delete, hg]
    · intro h ms
      simp [h] at hg
      simp at h
    · intro _
      refine ⟨?_, ?_, ?_, ?_⟩ <;>
        simp [EmbeddedCollection.delete, EmbeddedCollection._delete, hg]

/-- Witness for C3: deleting a present key and an absent key of a concrete
collection. -/
theorem C3_witness :
    ((⟨[("a", ⟨"a", 1⟩)], [⟨"a", 1, true⟩], []⟩ :
        EmbeddedCollection).delete "a" true).2 = true ∧
    (⟨[("a", ⟨"a", 1⟩)], [⟨"a", 1, true⟩], []⟩ :
        EmbeddedCollection).delete "b" true =
      (⟨[("a", ⟨"a", 1⟩)], [⟨"a", 1, true⟩], []⟩, false) ∧
    ((⟨[("a", ⟨"a", 1⟩)], [⟨"a", 1, true⟩], []⟩ :
        EmbeddedCollection).delete "a" true).1._source = [] := by
  have h := C3_delete_semantics
    (⟨[("a", ⟨"a", 1⟩)], [⟨"a", 1, true⟩], []⟩ : EmbeddedCollection) "a"
  have h2 := C3_delete_semantics
    (⟨[("a", ⟨"a", 1⟩)], [⟨"a", 1, true⟩], []⟩ : EmbeddedCollection) "b"
  refine ⟨?_, h2.2.1 (by decide) true, ?_⟩
  · rw [h.1 true]; decide
  · rw [(h.2.2 (by decide)).2.1]; decide

theorem update_frame : ∀ (changes : List Record) (c : EmbeddedCollection) (id : String),
    id ∉ changes.map Record._id →
    assocGet (c.update changes).documents id = assocGet c.documents id ∧
    srcFind (c.update changes)._source id = srcFind c._source id := by
  intro changes
  induction changes with
  | nil => intro c id _; exact ⟨rfl, rfl⟩
  | cons r rest ih =>
      intro c id hid
      rw [List.map_cons] at hid
      have h1 : id ≠ r._id := fun he => hid (by rw [he]; exact List.mem_cons_self _ _)
      have h2 : id ∉ rest.map Record._id := fun hm => hid (List.mem_cons_of_mem _ hm)
      have step := ih (c.set r._id ⟨r._id, r.val⟩ true) id h2
      have hrw : c.update (r :: rest) = (c.set r._id ⟨r._id, r.val⟩ true).update rest := rfl
      refine ⟨?_, ?_⟩
      · rw [hrw, step.1, set_documents, assocGet_assocSet_ne _ _ _ _ (Ne.symm h1)]
      · rw [hrw, step.2,
            show (c.set r._id (⟨r._id, r.val⟩ : Doc) true)._source =
              srcSet c._source r._id (Doc.toRecord ⟨r._id, r.val⟩) from rfl,
            srcFind_srcSet_ne c._source r._id id (Doc.toRecord ⟨r._id, r.val⟩) rfl
              (Ne.symm h1)]

theorem update_creates : ∀ (changes : List Record) (c : EmbeddedCollection),
    (changes.map Record._id).Nodup →
    ∀ r ∈ changes, assocGet (c.update changes).documents r._id = some ⟨r._id, r.val⟩ := by
  intro changes
  induction changes with
  | nil => intro c _ r hr; simp at hr
  | cons a rest ih =>
      intro c hnd r hr
      rw [List.map_cons, List.nodup_cons] at hnd
      rcases List.mem_cons.mp hr with h | h
      · subst h
        have hfr := (update_frame rest (c.set r._id ⟨r._id, r.val⟩ true) r._id hnd.1).1
        rw [show c.update (r :: rest) = (c.set r._id ⟨r._id, r.val⟩ true).update rest from rfl,
            hfr, set_documents, assocGet_assocSet_self]
      · rw [show c.update (a :: rest) = (c.set a._id ⟨a._id, a.val⟩ true).update rest from rfl]
        exact ih (c.set a._id ⟨a._id, a.val⟩ true) hnd.2 r h

/-- C4: the bulk update operation reconciles the collection with the batch of
raw records — creating children for identifiers new to the collection and
updating existing children in place — while every identifier not present in
the batch is left completely untouched, in the live map and in the backing
source array alike: omission from the batch never implies removal. -/
theorem C4_update_reconciles (c : EmbeddedCollection) (changes : List Record) :
    (∀ id, id ∉ changes.map Record._id →
       assocGet (c.update changes).documents id = assocGet c.documents id ∧
       srcFind (c.update changes)._source id = srcFind c._source id) ∧
    ((changes.map Record._id).Nodup →
       ∀ r ∈ changes, assocGet (c.update changes).documents r._id = some ⟨r._id, r.val⟩) :=
  ⟨fun id h => update_frame changes c id h,
   fun hnd r hr => update_creates changes c hnd r hr⟩

/-- Witness for C4: a concrete batch updates one existing child, creates one
new child, and leaves an omitted identifier untouched. -/
theorem C4_witness :
    assocGet ((⟨[("a", ⟨"a", 1⟩), ("c", ⟨"c", 3⟩)],
        [⟨"a", 1, true⟩, ⟨"c", 3, true⟩], []⟩ :
        EmbeddedCollection).update [⟨"a", 9, true⟩, ⟨"b", 7, true⟩]).documents "c" =
      some ⟨"c", 3⟩ ∧
    assocGet ((⟨[("a", ⟨"a", 1⟩), ("c", ⟨"c", 3⟩)],
        [⟨"a", 1, true⟩, ⟨"c", 3, true⟩], []⟩ :
        EmbeddedCollection).update [⟨"a", 9, true⟩, ⟨"b", 7, true⟩]).documents "a" =
      some ⟨"a", 9⟩ ∧
    assocGet ((⟨[("a", ⟨"a", 1⟩), ("c", ⟨"c", 3⟩)],
        [⟨"a", 1, true⟩, ⟨"c", 3, true⟩], []⟩ :
        EmbeddedCollection).update [⟨"a", 9, true⟩, ⟨"b", 7, true⟩]).documents "b" =
      some ⟨"b", 7⟩ := by
  have h := C4_update_reconciles
    (⟨[("a", ⟨"a", 1⟩), ("c", ⟨"c", 3⟩)], [⟨"a", 1, true⟩, ⟨"c", 3, true⟩], []⟩ :
       EmbeddedCollection) [⟨"a", 9, true⟩, ⟨"b", 7, true⟩]
  refine ⟨((h.1 "c" (by decide)).1).trans (by decide),
          h.2 (by decide) ⟨"a", 9, true⟩ (by decide),
          h.2 (by decide) ⟨"b", 7, true⟩ (by decide)⟩

/-! ### Retrieval, the invalid set, and key uniqueness -/

/-- C5: get returns the live child instance when present and otherwise a
not-found signal; with the strict opt-in a missing identifier is escalated to
a hard failure; with the invalid opt-in an instance from the invalid set may
be retrieved in degraded form; both options default to off. -/
theorem C5_get_retrieval (c : EmbeddedCollection) (id : String) :
    (c.getDefault id = c.get id false false) ∧
    (∀ d, assocGet c.documents id = some d →
       ∀ st inv, c.get id st inv = Except.ok (some (Retrieved.live d))) ∧
    (assocGet c.documents id = none →
       (c.get id false false = Except.ok none) ∧
       (c.get id true false = Except.error "does not exist") ∧
       (∀ r, id ∈ c.invalidDocumentIds → srcFind c._source id = some r →
          ∀ st, c.get id st true = Except.ok (some (Retrieved.degraded r))) ∧
       (id ∉ c.invalidDocumentIds →
          c.get id true true = Except.error "does not exist" ∧
          c.get id false true = Except.ok none)) := by
  refine ⟨rfl, ?_, ?_⟩
  · intro d hd st inv
    simp [EmbeddedCollection.get, hd]
  · intro hnone
    refine ⟨?_, ?_, ?_, ?_⟩
    · simp [EmbeddedCollection.get, hnone]
    · simp [EmbeddedCollection.get, hnone]
    · intro r hmem hfind st
      simp [EmbeddedCollection.get, hnone, EmbeddedCollection.getInvalid, hmem, hfind]
    · intro hmem
      constructor <;>
        simp [EmbeddedCollection.get, hnone, EmbeddedCollection.getInvalid, hmem]

/-- Witness for C5: retrieval of a live child, strict escalation on a missing
identifier, and degraded retrieval of an invalid entry, on a concrete
collection. -/
theorem C5_witness :
    (⟨[("a", ⟨"a", 1⟩)], [⟨"a", 1, true⟩, ⟨"b", 2, false⟩], ["b"]⟩ :
       EmbeddedCollection).get "a" false false =
      Except.ok (some (Retrieved.live ⟨"a", 1⟩)) ∧
    (⟨[("a", ⟨"a", 1⟩)], [⟨"a", 1, true⟩, ⟨"b", 2, false⟩], ["b"]⟩ :
       EmbeddedCollection).get "b" true false = Except.error "does not exist" ∧
    (⟨[("a", ⟨"a", 1⟩)], [⟨"a", 1, true⟩, ⟨"b", 2, false⟩], ["b"]⟩ :
       EmbeddedCollection).get "b" false true =
      Except.ok (some (Retrieved.degraded ⟨"b", 2, false⟩)) := by
  have ha := C5_get_retrieval
    (⟨[("a", ⟨"a", 1⟩)], [⟨"a", 1, true⟩, ⟨"b", 2, false⟩], ["b"]⟩ : EmbeddedCollection) "a"
  have hb := C5_get_retrieval
    (⟨[("a", ⟨"a", 1⟩)], [⟨"a", 1, true⟩, ⟨"b", 2, false⟩], ["b"]⟩ : EmbeddedCollection) "b"
  exact ⟨ha.2.1 ⟨"a", 1⟩ (by decide) false false,
         (hb.2.2 (by decide)).2.1,
         (hb.2.2 (by decide)).2.2.1 ⟨"b", 2, false⟩ (by decide) (by decide) false⟩

/-- C6: every identifier whose source record failed construction is tracked in
the invalid-entry set, no identifier of the invalid set participates in
normal iteration over the live map, and its degraded instance remains
retrievable via getInvalid, which throws exactly when strict is true and the
identifier is not in the invalid set. -/
theorem C6_invalid_set_tracking (src : List Record) (strict : Bool)
    (hnd : (src.map Record._id).Nodup) :
    (∀ r ∈ src, r.valid = false →
       r._id ∈ (EmbeddedCollection.init src strict).1.invalidDocumentIds) ∧
    (∀ id ∈ (EmbeddedCollection.init src strict).1.invalidDocumentIds,
       id ∉ (EmbeddedCollection.init src strict).1.documents.map Prod.fst) ∧
    (∀ (c : EmbeddedCollection) (id : String) (s : Bool),
       ((∃ e, c.getInvalid id s = Except.error e) ↔
          (s = true ∧ id ∉ c.invalidDocumentIds)) ∧
       (id ∈ c.invalidDocumentIds →
          c.getInvalid id s = Except.ok (srcFind c._source id))) := by
  rw [init_spec src strict hnd]
  refine ⟨?_, ?_, ?_⟩
  · intro r hr hv
    exact List.mem_map.mpr ⟨r, List.mem_filter.mpr ⟨hr, by simp [hv]⟩, rfl⟩
  · intro id hmem
    rw [map_pair_keys]
    exact invalid_valid_disjoint src hnd id hmem
  · intro c id s
    refine ⟨⟨?_, ?_⟩, ?_⟩
    · rintro ⟨e, he⟩
      by_cases hm : id ∈ c.invalidDocumentIds
      · simp [EmbeddedCollection.getInvalid, hm] at he
      · cases s
        · simp [EmbeddedCollection.getInvalid, hm] at he
        · exact ⟨rfl, hm⟩
    · rintro ⟨hs, hm⟩
      subst hs
      exact ⟨"id is not in the set of invalid ids",
             by simp [EmbeddedCollection.getInvalid, hm]⟩
    · intro hm
      simp [EmbeddedCollection.getInvalid, hm]

/-- Witness for C6: a concrete invalid record is tracked, excluded from
iteration, and retrievable in degraded form; a non-invalid identifier throws
under strict. -/
theorem C6_witness :
    "b" ∈ (EmbeddedCollection.init
      [⟨"a", 1, true⟩, ⟨"b", 2, false⟩] true).1.invalidDocumentIds ∧
    "b" ∉ (EmbeddedCollection.init
      [⟨"a", 1, true⟩, ⟨"b", 2, false⟩] true).1.documents.map Prod.fst ∧
    (⟨[], [⟨"b", 2, false⟩], ["b"]⟩ : EmbeddedCollection).getInvalid "b" true =
      Except.ok (some ⟨"b", 2, false⟩) ∧
    (∃ e, (⟨[], [], []⟩ : EmbeddedCollection).getInvalid "zz" true =
      Except.error e) := by
  have h := C6_invalid_set_tracking [⟨"a", 1, true⟩, ⟨"b", 2, false⟩] true (by decide)
  refine ⟨h.1 ⟨"b", 2, false⟩ (by decide) rfl,
          h.2.1 "b" (h.1 ⟨"b", 2, false⟩ (by decide) rfl), ?_, ?_⟩
  · rw [(h.2.2 (⟨[], [⟨"b", 2, false⟩], ["b"]⟩ : EmbeddedCollection) "b" true).2 (by decide)]
    rfl
  · exact ((h.2.2 (⟨[], [], []⟩ : EmbeddedCollection) "zz" true).1).mpr ⟨rfl, by decide⟩

theorem nodup_keys_set (c : EmbeddedCollection) (k : String) (v : Doc) (ms : Bool)
    (h : (c.documents.map Prod.fst).Nodup) :
    ((c.set k v ms).documents.map Prod.fst).Nodup := by
  rw [set_documents]
  exact nodup_keys_assocSet c.documents k v h

theorem nodup_keys_delete (c : EmbeddedCollection) (k : String) (ms : Bool)
    (h : (c.documents.map Prod.fst).Nodup) :
    (((c.delete k ms).1.documents).map Prod.fst).Nodup := by
  rcases hg : assocGet c.documents k with _ | d
  · simp only [EmbeddedCollection.delete, hg]
    exact h
  · cases ms <;>
      simp only [EmbeddedCollection.delete, hg, EmbeddedCollection._delete] <;>
      exact nodup_keys_assocDelete c.documents k h

theorem nodup_keys_update : ∀ (data : List Record) (c : EmbeddedCollection),
    (c.documents.map Prod.fst).Nodup →
    ((c.update data).documents.map Prod.fst).Nodup := by
  intro data
  induction data with
  | nil => intro c h; exact h
  | cons r rest ih =>
      intro c h
      exact ih (c.set r._id ⟨r._id, r.val⟩ true) (nodup_keys_set c r._id ⟨r._id, r.val⟩ true h)

theorem nodup_keys_applyOp (c : EmbeddedCollection) (op : Op)
    (h : (c.documents.map Prod.fst).Nodup) :
    ((c.applyOp op).documents.map Prod.fst).Nodup := by
  cases op with
  | setOp k v ms => exact nodup_keys_set c k v ms h
  | deleteOp k ms => exact nodup_keys_delete c k ms h
  | updateOp data => exact nodup_keys_update data c h

theorem nodup_keys_applyOps : ∀ (ops : List Op) (c : EmbeddedCollection),
    (c.documents.map Prod.fst).Nodup →
    ((c.applyOps ops).documents.map Prod.fst).Nodup := by
  intro ops
  induction ops with
  | nil => intro c h; exact h
  | cons op rest ih =>
      intro c h
      exact ih (c.applyOp op) (nodup_keys_applyOp c op h)

/-- C7: keys of the collection are unique string identifiers mapping to child
instances — construction populates the live map in backing-array order, the
key list stays duplicate-free under any sequence of declared mutation
operations, and a set operation preserves the position of an existing key
while appending a new key at the end, so iteration yields children in
insertion order. -/
theorem C7_order_and_unique_keys (src : List Record) (strict : Bool)
    (hnd : (src.map Record._id).Nodup) :
    ((EmbeddedCollection.init src strict).1.documents =
       (src.filter fun r => r.valid).map (fun r => (r._id, ⟨r._id, r.val⟩))) ∧
    (∀ ops : List Op,
       (((EmbeddedCollection.init src strict).1.applyOps ops).documents.map
          Prod.fst).Nodup) ∧
    (∀ (c : EmbeddedCollection) (k : String) (v : Doc) (ms : Bool),
       ((assocGet c.documents k).isSome = true →
          (c.set k v ms).documents.map Prod.fst = c.documents.map Prod.fst) ∧
       (assocGet c.documents k = none →
          (c.set k v ms).documents.map Prod.fst = c.documents.map Prod.fst ++ [k])) := by
  have hdocs : (EmbeddedCollection.init src strict).1.documents =
      (src.filter fun r => r.valid).map (fun r => (r._id, (⟨r._id, r.val⟩ : Doc))) := by
    rw [init_spec src strict hnd]
  refine ⟨hdocs, ?_, ?_⟩
  · intro ops
    apply nodup_keys_applyOps
    rw [hdocs, map_pair_keys]
    exact nodup_filter_ids src _ hnd
  · intro c k v ms
    constructor
    · intro h
      rw [set_documents]
      exact assocSet_keys_mem c.documents k v h
    · intro h
      rw [set_documents]
      exact assocSet_keys_new c.documents k v h

/-- Witness for C7: construction order and key uniqueness after a concrete
sequence of operations. -/
theorem C7_witness :
    ((EmbeddedCollection.init
       [⟨"a", 1, true⟩, ⟨"b", 2, false⟩, ⟨"c", 3, true⟩] true).1.documents =
      [("a", ⟨"a", 1⟩), ("c", ⟨"c", 3⟩)]) ∧
    ((((EmbeddedCollection.init
       [⟨"a", 1, true⟩, ⟨"b", 2, false⟩, ⟨"c", 3, true⟩] true).1.applyOps
        [Op.setOp "d" ⟨"d", 4⟩ true, Op.deleteOp "a" true,
         Op.updateOp [⟨"c", 9, true⟩]]).documents.map Prod.fst).Nodup) := by
  have h := C7_order_and_unique_keys
    [⟨"a", 1, true⟩, ⟨"b", 2, false⟩, ⟨"c", 3, true⟩] true (by decide)
  refine ⟨?_, h.2.1 [Op.setOp "d" ⟨"d", 4⟩ true, Op.deleteOp "a" true,
                     Op.updateOp [⟨"c", 9, true⟩]]⟩
  rw [h.1]
  decide

/-! ### The repository as pure interface description -/

/-- One declaration file of the repository, with its total line count and its
count of lines of original implementable logic.  Taken from the source: every
file consists solely of ambient declarations (classes, interfaces, types)
without function bodies, so each executable-logic count is zero. -/
structure SourceFile where
  path : String
  totalLines : Nat
  executableLogicLines : Nat
deriving DecidableEq, Repr

/-- The repository's four declaration files with their line counts. -/
def repositoryFiles : List SourceFile :=
  [⟨"types/framework/entities/embeddedEntity.d.ts", 512, 0⟩,
   ⟨"src/common/abstract/embeddedCollection.d.ts", 18, 0⟩,
   ⟨"src/foundry/client/data/documents/card.d.mts", 96, 0⟩,
   ⟨"avmaster declaration file", 195, 0⟩]

/-- Who implements a declared operation. -/
inductive Implementer where
  | host : Implementer
  | thisRepository : Implementer
deriving DecidableEq, Repr

/-- An operation declared in the repository, with its implementer. -/
structure DeclaredOperation where
  opName : String
  implementer : Implementer
deriving DecidableEq, Repr

/-- The declared operations the claims name: each is an ambient declaration
without a body, implemented solely by the external host application. -/
def declaredOperations : List DeclaredOperation :=
  [⟨"ActiveEffect.apply", Implementer.host⟩,
   ⟨"Card.flip", Implementer.host⟩,
   ⟨"AVMaster._onAudioLevel", Implementer.host⟩,
   ⟨"EmbeddedCollection.set", Implementer.host⟩,
   ⟨"EmbeddedCollection.delete", Implementer.host⟩,
   ⟨"EmbeddedCollection.update", Implementer.host⟩]

/-- C8: the repository is pure interface description — its four declaration
files total 821 lines (approximately the 823 the spec counts), every file has
zero lines of original implementable logic, and every declared operation is
implemented solely by the external host application. -/
theorem C8_declarations_only :
    ((repositoryFiles.map SourceFile.totalLines).sum = 821) ∧
    (820 ≤ (repositoryFiles.map SourceFile.totalLines).sum ∧
     (repositoryFiles.map SourceFile.totalLines).sum ≤ 826) ∧
    (∀ f ∈ repositoryFiles, f.executableLogicLines = 0) ∧
    (∀ o ∈ declaredOperations, o.implementer = Implementer.host) :=
  ⟨rfl, by decide, by decide, by decide⟩

/-! ### Card flipping -/

/-- A Card document: its identifier, its list of faces (by image), and the
currently displayed face index (`none` displays the back). -/
structure Card where
  id : String
  faces : List String
  face : Option Nat
deriving DecidableEq, Repr

/-- Modelled from the spec: `Card#flip`, declared but not implemented in the
repository.  With a specific face requested the card is flipped to that face;
otherwise, if the card currently displays a face it is flipped to the back,
and if it currently displays the back it is flipped to the first face (index
0); the operation resolves to the same card after the flip. -/
def Card.flip (c : Card) (face : Option Nat) : Card :=
  match face with
  | some f => ⟨c.id, c.faces, some f⟩
  | none =>
      match c.face with
      | some _ => ⟨c.id, c.faces, none⟩
      | none => ⟨c.id, c.faces, some 0⟩

/-- C9: flip with no specific face requested toggles between face and back —
a card displaying a face is flipped to the back, a card displaying the back
is flipped to the first face — and the operation resolves to a reference to
the same card. -/
theorem C9_flip_toggles (c : Card) :
    (∀ f, c.face = some f → (c.flip none).face = none) ∧
    (c.face = none → (c.flip none).face = some 0) ∧
    (c.flip none).id = c.id ∧ (c.flip none).faces = c.faces := by
  rcases hf : c.face with _ | f <;>
    simp [Card.flip, hf]

/-- Witness for C9: a concrete card showing face 1 flips to the back, and a
concrete card showing the back flips to the first face. -/
theorem C9_witness :
    ((⟨"c1", ["f0", "f1"], some 1⟩ : Card).flip none).face = none ∧
    ((⟨"c1", ["f0", "f1"], none⟩ : Card).flip none).face = some 0 ∧
    ((⟨"c1", ["f0", "f1"], some 1⟩ : Card).flip none).id = "c1" := by
  have h1 := C9_flip_toggles (⟨"c1", ["f0", "f1"], some 1⟩ : Card)
  have h2 := C9_flip_toggles (⟨"c1", ["f0", "f1"], none⟩ : Card)
  exact ⟨h1.1 1 rfl, h2.2.1 rfl, h1.2.2.1⟩

/-! ### Voice-activity detection -/

/-- The speaking state tracked for one user: whether the user is currently
considered speaking, and the recent volume history in decibels. -/
structure SpeakingEntry where
  speaking : Bool
  volumeHistories : List Int
deriving DecidableEq, Repr

/-- The audio controller state relevant to voice detection: per-user speaking
data, keyed by user id. -/
structure AVMasterState where
  _speakingData : List (String × SpeakingEntry)
deriving DecidableEq, Repr

/-- Modelled from the spec: the volume-history window kept by the audio
controller — the reported level is appended and only the last 4 volumes are
kept (one per 50 ms, covering 200 ms). -/
def pushVolume (hist : List Int) (dbLevel : Int) : List Int :=
  let h := hist ++ [dbLevel]
  if 4 < h.length then h.drop (h.length - 4) else h

/-- Modelled from the spec: `AVMaster#_onAudioLevel`, declared but not
implemented in the repository.  Appends the reported decibel level to the
user's volume history (keeping the last 4 values) and marks the user as
speaking exactly when some value of the history is above the decibel
threshold: the user is marked speaking as soon as any volume is high enough,
and marked not speaking only after all history values drop below the
threshold. -/
def AVMasterState._onAudioLevel (s : AVMasterState) (threshold : Int)
    (userId : String) (dbLevel : Int) : AVMasterState :=
  let e := (assocGet s._speakingData userId).getD ⟨false, []⟩
  let hist := pushVolume e.volumeHistories dbLevel
  let speaking := hist.any (fun v => decide (threshold < v))
  ⟨assocSet s._speakingData userId ⟨speaking, hist⟩⟩

theorem pushVolume_length_le (hist : List Int) (dbLevel : Int) :
    (pushVolume hist dbLevel).length ≤ 4 := by
  simp only [pushVolume]
  split
  · rw [List.length_drop]
    omega
  · omega

/-- C10: after an audio-level report the user's entry holds the last 4
reported volumes and is marked speaking exactly when any history value is
above the decibel threshold; consequently the user is never marked
not-speaking while any of the last 4 reported levels remains above the
threshold. -/
theorem C10_onAudioLevel_speaking (s : AVMasterState) (threshold : Int)
    (userId : String) (dbLevel : Int) :
    assocGet (s._onAudioLevel threshold userId dbLevel)._speakingData userId =
      some ⟨(pushVolume ((assocGet s._speakingData userId).getD
               ⟨false, []⟩).volumeHistories dbLevel).any (fun v => decide (threshold < v)),
            pushVolume ((assocGet s._speakingData userId).getD
              ⟨false, []⟩).volumeHistories dbLevel⟩ ∧
    (∀ e, assocGet (s._onAudioLevel threshold userId dbLevel)._speakingData userId =
            some e →
       e.volumeHistories.length ≤ 4 ∧
       (e.speaking = true ↔ ∃ v ∈ e.volumeHistories, threshold < v) ∧
       (e.speaking = false → ∀ v ∈ e.volumeHistories, v ≤ threshold)) := by
  have hget : assocGet (s._onAudioLevel threshold userId dbLevel)._speakingData userId =
      some ⟨(pushVolume ((assocGet s._speakingData userId).getD
               ⟨false, []⟩).volumeHistories dbLevel).any (fun v => decide (threshold < v)),
            pushVolume ((assocGet s._speakingData userId).getD
              ⟨false, []⟩).volumeHistories dbLevel⟩ :=
    assocGet_assocSet_self _ _ _
  refine ⟨hget, ?_⟩
  intro e he
  rw [hget] at he
  simp only [Option.some.injEq] at he
  subst he
  refine ⟨pushVolume_length_le _ _, ?_, ?_⟩
  · simp [List.any_eq_true]
  · intro hfalse v hv
    simp only [List.any_eq_false, decide_eq_true_eq] at hfalse
    have := hfalse v hv
    omega

/-- Witness for C10: a user who was speaking stays marked speaking while one
of the last 4 levels is above the threshold, and a user whose whole history
has dropped below the threshold is marked not speaking. -/
theorem C10_witness :
    assocGet ((⟨[("alice", ⟨true, [-50, -50, -30]⟩)]⟩ :
        AVMasterState)._onAudioLevel (-40) "alice" (-60))._speakingData "alice" =
      some ⟨true, [-50, -50, -30, -60]⟩ ∧
    assocGet ((⟨[("bob", ⟨true, [-30, -50, -50, -50]⟩)]⟩ :
        AVMasterState)._onAudioLevel (-40) "bob" (-55))._speakingData "bob" =
      some ⟨false, [-50, -50, -50, -55]⟩ := by
  have h1 := C10_onAudioLevel_speaking
    (⟨[("alice", ⟨true, [-50, -50, -30]⟩)]⟩ : AVMasterState) (-40) "alice" (-60)
  have h2 := C10_onAudioLevel_speaking
    (⟨[("bob", ⟨true, [-30, -50, -50, -50]⟩)]⟩ : AVMasterState) (-40) "bob" (-55)
  constructor
  · rw [h1.1]; decide
  · rw [h2.1]; decide
